import Mathlib

/-!
Shallow embedding of the kanban repository's authentication and
authorization core (src/src/lib/auth.ts, the api-auth helper exporting
validateApiToken and validateRequest, and the route handlers under
src/src/app/api), together with proofs of the specification claims.

JavaScript machine integers are modelled as `Int` with explicit reduction
modulo 2^32 at every point where the source truncates to a 32-bit signed
integer (`hash & hash`, `<< 5`).  Strings are Lean `String`s; the character
codes seen by `charCodeAt` are the code points (identical for the ASCII
data handled here).  The drizzle-backed store is modelled as explicit
lists of rows, and every operation is state passing: it returns its result
together with the store it leaves behind.
-/

set_option maxRecDepth 4000

/-- ToInt32: reduce an integer modulo 2^32 into the signed 32-bit range
[-2^31, 2^31), as JavaScript's `x & x` / `x | 0` coercion does. -/
def toInt32 (n : Int) : Int :=
  (n + 2147483648) % 4294967296 - 2147483648

/-- One iteration of the source's hash loop:
`hash = ((hash << 5) - hash) + char; hash = hash & hash`.
`hash << 5` wraps to int32, the subtraction and addition are exact, and
`hash & hash` truncates the result back to int32. -/
def hashStep (h : Int) (c : Nat) : Int :=
  toInt32 (toInt32 (h * 32) - h + (c : Int))

/-- The `for` loop of `hashCode` folded over a list of characters. -/
def hashLoop (l : List Char) : Int :=
  l.foldl (fun h c => hashStep h c.toNat) 0

/-- Hexadecimal digit characters, as produced by JavaScript
`Number.prototype.toString(16)` (lowercase): 0-9 then a-f. -/
def hexDigitChar (n : Nat) : Char :=
  if n < 10 then Char.ofNat (48 + n) else Char.ofNat (87 + n)

/-- Digit extraction for `n.toString(16)`, fuel-structured the way core's
`Nat.toDigits` is.  The fuel never runs out when it starts at `n + 1`,
because the argument shrinks by a factor of 16 at each step. -/
def toHexAux : Nat → Nat → List Char
  | 0, _ => []
  | fuel + 1, n =>
    if n < 16 then [hexDigitChar n]
    else toHexAux fuel (n / 16) ++ [hexDigitChar (n % 16)]

/-- `n.toString(16)` for a natural number: most-significant digit first,
no leading zeros (`0` renders as "0"). -/
def toHexList (n : Nat) : List Char :=
  toHexAux (n + 1) n

/-- `String.prototype.padStart(8, '0')` on a character list. -/
def padStart8 (l : List Char) : List Char :=
  List.replicate (8 - l.length) '0' ++ l

/-- `hashCode` from src/src/lib/auth.ts: two rounds of the djb2-style
loop, the second over the salted string
`kanban_${hash}_${code.split('').reverse().join('')}`, then
`Math.abs(finalHash).toString(16).padStart(8, '0')`. -/
def hashCode (code : String) : String :=
  let hash := hashLoop code.data
  let salted := "kanban_" ++ toString hash ++ "_" ++ String.mk code.data.reverse
  let finalHash := hashLoop salted.data
  String.mk (padStart8 (toHexList finalHash.natAbs))

example : hashCode "123456" = "5441bfaf" := by decide
example : hashCode "000000" = "24b2262d" := by decide

/-! ## Data model: the credential and session stores -/

/-- A row of the `passcodes` table (fields used by the auth core). -/
structure Passcode where
  id : String
  code : String
  name : String
  isAdmin : Bool
  lastUsedAt : Option Int
deriving DecidableEq, Repr

/-- A row of the `sessions` table. -/
structure Session where
  passcodeId : String
  token : String
  expiresAt : Int
deriving DecidableEq, Repr

/-- The persistent store: the two tables of the auth core. -/
structure Store where
  passcodes : List Passcode
  sessions : List Session
deriving DecidableEq, Repr

def Store.empty : Store := ⟨[], []⟩

/-- Result shape `{ success: boolean; error?: string }`. -/
structure OpResult where
  success : Bool
  error : Option String
deriving DecidableEq, Repr

/-- What `getSession` returns when a row matches. -/
structure SessionInfo where
  authenticated : Bool
  isAdmin : Bool
  name : String
deriving DecidableEq, Repr

/-! ## Session manager operations (src/src/lib/auth.ts) -/

def SESSION_DURATION_MS : Int := 2592000000

/-- The rows produced by `getSession`'s select: sessions inner-joined to
passcodes on `passcodeId`, filtered by exact token match and
`expiresAt > now` (drizzle `gt`), each row projected to the joined
passcode's `isAdmin` and `name`. -/
def sessionRows (token : String) (now : Int) (st : Store) : List (Bool × String) :=
  st.sessions.filterMap (fun s =>
    match st.passcodes.find? (fun p => p.id == s.passcodeId) with
    | some p => if s.token = token ∧ now < s.expiresAt then some (p.isAdmin, p.name) else none
    | none => none)

/-- `getSession` from src/src/lib/auth.ts.  The cookie token is `none`
when the cookie is absent; a present-but-empty value is falsy in the
source (`if (!token) return null`). -/
def getSession (cookieToken : Option String) (now : Int) (st : Store) : Option SessionInfo :=
  match cookieToken with
  | none => none
  | some token =>
    if token = "" then none
    else
      match sessionRows token now st with
      | [] => none
      | (isAdmin, nm) :: _ => some ⟨true, isAdmin, nm⟩

/-- `logout`: delete the session row matching the cookie token, if any. -/
def logout (cookieToken : Option String) (st : Store) : Store :=
  match cookieToken with
  | none => st
  | some token =>
    if token = "" then st
    else { st with sessions := st.sessions.filter (fun s => ¬ s.token = token) }

/-- `hasAnyPasscodes`: select with limit 1, nonempty result. -/
def hasAnyPasscodes (st : Store) : Bool :=
  !st.passcodes.isEmpty

/-- JavaScript `/^\d+$/.test code`: nonempty and all ASCII digits. -/
def digitsOnly (code : String) : Bool :=
  !code.data.isEmpty && code.data.all (fun c => c.isDigit)

/-- `createPasscode` from src/src/lib/auth.ts.  The database generates
the row id; here the fresh id is passed explicitly. -/
def createPasscode (code nm : String) (isAdmin : Bool) (freshId : String) (st : Store) :
    OpResult × Store :=
  if ¬ (code.length = 6 ∧ digitsOnly code = true) then
    (⟨false, some "Passcode must be exactly 6 digits"⟩, st)
  else
    let hashedCode := hashCode code
    match st.passcodes.find? (fun p => p.code == hashedCode) with
    | some _ => (⟨false, some "This passcode already exists"⟩, st)
    | none =>
      (⟨true, none⟩,
        { st with passcodes := st.passcodes ++ [⟨freshId, hashedCode, nm, isAdmin, none⟩] })

/-- `deletePasscode` from src/src/lib/auth.ts.  `admins` is the select of
rows with `isAdmin = true`; `passcodeToDelete` the first row matching the
id; optional chaining makes the guard false when the target is absent.
The delete removes rows matching the id, and the `sessions` foreign key
is declared `ON DELETE cascade`, so sessions of the deleted row go too. -/
def deletePasscode (id : String) (st : Store) : OpResult × Store :=
  let admins := st.passcodes.filter (fun p => p.isAdmin)
  let passcodeToDelete := st.passcodes.find? (fun p => p.id == id)
  if (match passcodeToDelete with | some p => p.isAdmin | none => false) = true
      ∧ admins.length ≤ 1 then
    (⟨false, some "Cannot delete the last admin passcode"⟩, st)
  else
    (⟨true, none⟩,
      { st with
        passcodes := st.passcodes.filter (fun p => ¬ p.id = id),
        sessions := st.sessions.filter (fun s => ¬ s.passcodeId = id) })

/-- Result shape of `login`. -/
structure LoginResult where
  success : Bool
  isAdmin : Option Bool
  error : Option String
deriving DecidableEq, Repr

/-- `login` from src/src/lib/auth.ts, with the fallibility of the store
write that updates `lastUsedAt` made explicit: when `updateOk` is false
that write throws, the exception propagates out of `login` (there is no
try/catch around it in the source), and neither the update nor the
session insert happens.  `.error` is the propagated exception. -/
def loginWith (updateOk : Bool) (code : String) (now : Int) (freshTok : String) (st : Store) :
    Except String (LoginResult × Store) :=
  let hashedCode := hashCode code
  match st.passcodes.find? (fun p => p.code == hashedCode) with
  | none => .ok (⟨false, none, some "Invalid passcode"⟩, st)
  | some p =>
    if updateOk = false then .error "lastUsedAt update failed"
    else
      let st1 : Store :=
        { st with passcodes := st.passcodes.map (fun q =>
            if q.id = p.id then { q with lastUsedAt := some now } else q) }
      let st2 : Store :=
        { st1 with sessions := st1.sessions ++ [⟨p.id, freshTok, now + SESSION_DURATION_MS⟩] }
      .ok (⟨true, some p.isAdmin, none⟩, st2)

/-- `login` on the happy store path (every store write succeeds). -/
def login (code : String) (now : Int) (freshTok : String) (st : Store) : LoginResult × Store :=
  match loginWith true code now freshTok st with
  | .ok r => r
  | .error _ => (⟨false, none, some "Invalid passcode"⟩, st)

/-! ## Request authorizer (validateApiToken / validateRequest) -/

/-- The parts of an inbound request the auth core reads: the
`authorization` and `x-api-token` headers and the session cookie value. -/
structure Request where
  authorization : Option String
  xApiToken : Option String
  cookie : Option String
deriving DecidableEq, Repr

/-- `{ valid: boolean; error?: NextResponse }` — the error response is
reduced to its HTTP status. -/
structure AuthCheck where
  valid : Bool
  errorStatus : Option Nat
deriving DecidableEq, Repr

/-- JavaScript `s.startsWith pre`. -/
def strStartsWith (s pre : String) : Bool :=
  s.data.take pre.data.length == pre.data

/-- JavaScript `s.slice n` for a nonnegative index. -/
def strSlice (n : Nat) (s : String) : String :=
  String.mk (s.data.drop n)

/-- `validateApiToken`: the env var `API_AUTH_TOKEN` is `none` when
unset; an empty string is falsy too (`if (!apiToken)`), so both count as
unconfigured and allow all requests.  Otherwise a `Bearer `-prefixed
authorization header whose remainder equals the token, or an
`x-api-token` header equal to the token, is accepted; anything else is a
401. -/
def validateApiToken (apiTokenEnv : Option String) (req : Request) : AuthCheck :=
  match apiTokenEnv with
  | none => ⟨true, none⟩
  | some apiToken =>
    if apiToken = "" then ⟨true, none⟩
    else
      let bearerOk :=
        match req.authorization with
        | some authHeader =>
          strStartsWith authHeader "Bearer " && (strSlice 7 authHeader == apiToken)
        | none => false
      if bearerOk then ⟨true, none⟩
      else if req.xApiToken == some apiToken then ⟨true, none⟩
      else ⟨false, some 401⟩

/-- `validateRequest`: API token check first; on failure fall back to the
session cookie; otherwise a 401 structured error. -/
def validateRequest (apiTokenEnv : Option String) (req : Request) (now : Int) (st : Store) :
    AuthCheck :=
  if (validateApiToken apiTokenEnv req).valid then ⟨true, none⟩
  else
    match getSession req.cookie now st with
    | some s => if s.authenticated then ⟨true, none⟩ else ⟨false, some 401⟩
    | none => ⟨false, some 401⟩

/-! ## Route handlers (src/src/app/api) -/

/-- Outcome of the login route: HTTP status, whether the first-run
branch that force-creates the admin passcode ran its create, and the
store left behind. -/
structure RouteOutcome where
  status : Nat
  createdFirstAdmin : Bool
  store : Store
deriving DecidableEq, Repr

/-- POST /api/auth/login.  `body` is the `code` field of the JSON body
(`none` when absent or not a string, and the empty string is falsy).
When no passcodes exist the handler validates the six-digit shape,
creates the first admin passcode named "Admin" and logs in; otherwise it
delegates to `login`, mapping failure to 401. -/
def loginRoutePost (body : Option String) (now : Int) (freshId freshTok : String) (st : Store) :
    RouteOutcome :=
  match body with
  | none => ⟨400, false, st⟩
  | some code =>
    if code = "" then ⟨400, false, st⟩
    else if hasAnyPasscodes st = false then
      if ¬ (code.length = 6 ∧ digitsOnly code = true) then ⟨400, false, st⟩
      else
        let st1 := (createPasscode code "Admin" true freshId st).2
        let st2 := (login code now freshTok st1).2
        ⟨200, true, st2⟩
    else
      let r := login code now freshTok st
      if r.1.success then ⟨200, false, r.2⟩ else ⟨401, false, r.2⟩

/-- GET /api/admin/passcodes: the in-handler admin gate, then the list
(which does not change the store). -/
def passcodesListRoute (req : Request) (now : Int) (st : Store) : Nat × Store :=
  match getSession req.cookie now st with
  | some s => if s.authenticated && s.isAdmin then (200, st) else (401, st)
  | none => (401, st)

/-- JSON body of POST /api/admin/passcodes. -/
structure CreateBody where
  code : Option String
  name : Option String
  isAdmin : Option Bool
deriving DecidableEq, Repr

/-- POST /api/admin/passcodes: admin gate, `!code || !name` check, then
`createPasscode code name (isAdmin || false)`. -/
def passcodesCreateRoute (req : Request) (body : CreateBody) (now : Int) (freshId : String)
    (st : Store) : Nat × Store :=
  match getSession req.cookie now st with
  | some s =>
    if s.authenticated && s.isAdmin then
      match body.code, body.name with
      | some code, some nm =>
        if code = "" ∨ nm = "" then (400, st)
        else
          let r := createPasscode code nm (body.isAdmin.getD false) freshId st
          (if r.1.success then 200 else 400, r.2)
      | _, _ => (400, st)
    else (401, st)
  | none => (401, st)

/-- DELETE /api/admin/passcodes/[id]: admin gate, then `deletePasscode`,
mapping failure to 400. -/
def passcodesDeleteRoute (req : Request) (now : Int) (id : String) (st : Store) : Nat × Store :=
  match getSession req.cookie now st with
  | some s =>
    if s.authenticated && s.isAdmin then
      let r := deletePasscode id st
      (if r.1.success then 200 else 400, r.2)
    else (401, st)
  | none => (401, st)

/-! ## Invariants and reachability -/

/-- The last-admin invariant: once any passcode exists, at least one is
an admin. -/
def AdminInv (st : Store) : Prop :=
  st.passcodes ≠ [] → ∃ p ∈ st.passcodes, p.isAdmin = true

/-- Well-formedness the database enforces: `id` is the primary key of
the passcodes table, so ids are pairwise distinct. -/
def IdsNodup (st : Store) : Prop :=
  (st.passcodes.map (fun p => p.id)).Nodup

def GoodStore (st : Store) : Prop := IdsNodup st ∧ AdminInv st

instance (st : Store) : Decidable (AdminInv st) := by unfold AdminInv; infer_instance

instance (st : Store) : Decidable (IdsNodup st) := by unfold IdsNodup; infer_instance

instance (st : Store) : Decidable (GoodStore st) := by unfold GoodStore; infer_instance

/-- One public operation of the system, as exposed over HTTP: the login
route (which owns first-run setup), the admin passcode-management routes
(create and delete, each behind the in-handler admin gate), the login
call itself, and logout.  Database-generated ids are fresh. -/
inductive Step : Store → Store → Prop where
  | loginPost (body : Option String) (now : Int) (freshId freshTok : String) (st : Store)
      (hfresh : freshId ∉ st.passcodes.map (fun p => p.id)) :
      Step st (loginRoutePost body now freshId freshTok st).store
  | createPost (req : Request) (body : CreateBody) (now : Int) (freshId : String) (st : Store)
      (hfresh : freshId ∉ st.passcodes.map (fun p => p.id)) :
      Step st (passcodesCreateRoute req body now freshId st).2
  | deleteCall (req : Request) (now : Int) (id : String) (st : Store) :
      Step st (passcodesDeleteRoute req now id st).2
  | loginCall (code : String) (now : Int) (freshTok : String) (st : Store) :
      Step st (login code now freshTok st).2
  | logoutCall (cookieToken : Option String) (st : Store) :
      Step st (logout cookieToken st)

/-- States reachable from the empty credential store by a sequential
execution of public operations. -/
inductive Reachable : Store → Prop where
  | empty : Reachable Store.empty
  | step {st st' : Store} : Reachable st → Step st st' → Reachable st'

/-! ## Helper lemmas -/

lemma sessionRows_mem {token : String} {now : Int} {st : Store} {b : Bool} {nm : String}
    (h : (b, nm) ∈ sessionRows token now st) :
    ∃ s ∈ st.sessions, s.token = token ∧ now < s.expiresAt ∧
      ∃ p ∈ st.passcodes, p.id = s.passcodeId ∧ p.isAdmin = b ∧ p.name = nm := by
  unfold sessionRows at h
  rw [List.mem_filterMap] at h
  obtain ⟨s, hs, hf⟩ := h
  refine ⟨s, hs, ?_⟩
  cases hfind : st.passcodes.find? (fun p => p.id == s.passcodeId) with
  | none => simp only [hfind] at hf; exact Option.noConfusion hf
  | some p =>
    simp only [hfind] at hf
    split at hf
    · next hcond =>
      simp only [Option.some.injEq, Prod.mk.injEq] at hf
      have hid := List.find?_some hfind
      simp only [beq_iff_eq] at hid
      exact ⟨hcond.1, hcond.2, p, List.mem_of_find?_eq_some hfind, hid, hf.1, hf.2⟩
    · simp at hf

lemma getSession_some {cookieToken : Option String} {now : Int} {st : Store} {info : SessionInfo}
    (h : getSession cookieToken now st = some info) :
    info.authenticated = true ∧
      ∃ t, cookieToken = some t ∧ t ≠ "" ∧
        ∃ s ∈ st.sessions, s.token = t ∧ now < s.expiresAt ∧
          ∃ p ∈ st.passcodes, p.id = s.passcodeId ∧ p.isAdmin = info.isAdmin ∧
            p.name = info.name := by
  cases cookieToken with
  | none => simp [getSession] at h
  | some token =>
    by_cases ht : token = ""
    · simp [getSession, ht] at h
    · cases hr : sessionRows token now st with
      | nil => simp [getSession, ht, hr] at h
      | cons row tail =>
        obtain ⟨b, nm⟩ := row
        simp only [getSession, ht, if_false, hr] at h
        cases h
        refine ⟨rfl, token, rfl, ht, ?_⟩
        have hmem : (b, nm) ∈ sessionRows token now st := by
          rw [hr]; exact List.mem_cons_self _ _
        exact sessionRows_mem hmem

/-- An authenticated admin session can only come from an admin passcode
in the store. -/
lemma admin_session_admin_passcode {cookieToken : Option String} {now : Int} {st : Store}
    {info : SessionInfo} (h : getSession cookieToken now st = some info)
    (ha : info.isAdmin = true) : ∃ p ∈ st.passcodes, p.isAdmin = true := by
  obtain ⟨-, t, -, -, s, -, -, -, p, hp, -, hpa, -⟩ := getSession_some h
  exact ⟨p, hp, by rw [hpa, ha]⟩

/-- Two passcodes of a store with primary-key-distinct ids and equal ids
are the same row. -/
lemma id_inj {st : Store} (hnd : IdsNodup st) {a b : Passcode}
    (ha : a ∈ st.passcodes) (hb : b ∈ st.passcodes) (h : a.id = b.id) : a = b :=
  List.inj_on_of_nodup_map hnd ha hb h

lemma createPasscode_cases (code nm : String) (isAd : Bool) (freshId : String) (st : Store) :
    (createPasscode code nm isAd freshId st).2 = st ∨
      (createPasscode code nm isAd freshId st).2.passcodes
          = st.passcodes ++ [⟨freshId, hashCode code, nm, isAd, none⟩] ∧
        (createPasscode code nm isAd freshId st).2.sessions = st.sessions := by
  unfold createPasscode
  split
  · left; rfl
  · dsimp only
    split
    · left; rfl
    · right; exact ⟨rfl, rfl⟩

lemma createPasscode_preserves {code nm : String} {isAd : Bool} {freshId : String} {st : Store}
    (hnd : IdsNodup st) (hai : AdminInv st)
    (hfresh : freshId ∉ st.passcodes.map (fun p => p.id))
    (hok : (∃ p ∈ st.passcodes, p.isAdmin = true) ∨ isAd = true) :
    IdsNodup (createPasscode code nm isAd freshId st).2 ∧
      AdminInv (createPasscode code nm isAd freshId st).2 ∧
      (st.passcodes ≠ [] → (createPasscode code nm isAd freshId st).2.passcodes ≠ []) := by
  rcases createPasscode_cases code nm isAd freshId st with heq | ⟨hp, -⟩
  · rw [heq]; exact ⟨hnd, hai, fun h => h⟩
  · constructor
    · unfold IdsNodup
      rw [hp, List.map_append]
      refine List.Nodup.append hnd (by simp) ?_
      intro x hx hx'
      simp only [List.map_cons, List.map_nil, List.mem_singleton] at hx'
      subst hx'
      exact hfresh hx
    · constructor
      · intro _
        rcases hok with ⟨w, hw, hwa⟩ | hAd
        · exact ⟨w, by rw [hp]; exact List.mem_append_left _ hw, hwa⟩
        · refine ⟨⟨freshId, hashCode code, nm, isAd, none⟩, ?_, hAd⟩
          rw [hp]; exact List.mem_append_right _ (List.mem_singleton_self _)
      · intro _
        rw [hp]
        simp

lemma login_cases (code : String) (now : Int) (freshTok : String) (st : Store) :
    (login code now freshTok st).2 = st ∨
      ∃ p : Passcode, (login code now freshTok st).2.passcodes
          = st.passcodes.map (fun q => if q.id = p.id then { q with lastUsedAt := some now } else q) := by
  cases hfind : st.passcodes.find? (fun p => p.code == hashCode code) with
  | none => left; simp [login, loginWith, hfind]
  | some p => right; exact ⟨p, by simp [login, loginWith, hfind]⟩

lemma login_preserves (code : String) (now : Int) (freshTok : String) (st : Store)
    (hnd : IdsNodup st) (hai : AdminInv st) :
    IdsNodup (login code now freshTok st).2 ∧ AdminInv (login code now freshTok st).2 ∧
      (st.passcodes ≠ [] → (login code now freshTok st).2.passcodes ≠ []) := by
  rcases login_cases code now freshTok st with heq | ⟨p, hp⟩
  · rw [heq]; exact ⟨hnd, hai, fun h => h⟩
  · have hids : ((login code now freshTok st).2.passcodes.map (fun q => q.id))
        = st.passcodes.map (fun q => q.id) := by
      rw [hp, List.map_map]
      apply List.map_congr_left
      intro q _
      by_cases hq : q.id = p.id <;> simp [hq]
    refine ⟨?_, ?_, ?_⟩
    · unfold IdsNodup
      rw [hids]
      exact hnd
    · intro hne
      have hne0 : st.passcodes ≠ [] := by
        intro h0
        rw [hp, h0] at hne
        exact hne rfl
      obtain ⟨w, hw, hwa⟩ := hai hne0
      refine ⟨if w.id = p.id then { w with lastUsedAt := some now } else w, ?_, ?_⟩
      · rw [hp]
        exact List.mem_map_of_mem _ hw
      · by_cases hq : w.id = p.id <;> simp [hq, hwa]
    · intro hne
      rw [hp]
      simpa using hne

lemma logout_preserves (cookieToken : Option String) (st : Store) :
    (logout cookieToken st).passcodes = st.passcodes := by
  unfold logout
  cases cookieToken with
  | none => rfl
  | some token => by_cases ht : token = "" <;> simp [ht]

lemma exists_other_mem {l : List Passcode} (hn : l.Nodup) {t : Passcode}
    (ht : t ∈ l) (h2 : 2 ≤ l.length) : ∃ a ∈ l, a ≠ t := by
  have hlen : 0 < (l.erase t).length := by
    rw [List.length_erase_of_mem ht]; omega
  obtain ⟨a, ha⟩ := List.exists_mem_of_length_pos hlen
  rw [hn.mem_erase_iff] at ha
  exact ⟨a, ha.2, ha.1⟩

lemma deletePasscode_preserves (id : String) (st : Store)
    (hnd : IdsNodup st) (hai : AdminInv st) :
    IdsNodup (deletePasscode id st).2 ∧ AdminInv (deletePasscode id st).2 ∧
      (st.passcodes ≠ [] → (deletePasscode id st).2.passcodes ≠ []) := by
  unfold deletePasscode
  dsimp only
  split
  · exact ⟨hnd, hai, fun h => h⟩
  · next hguard =>
    dsimp only
    have hsurv : st.passcodes ≠ [] →
        ∃ a ∈ st.passcodes.filter (fun p => ¬ p.id = id), a.isAdmin = true := by
      intro hne
      cases hfind : st.passcodes.find? (fun p => p.id == id) with
      | none =>
        obtain ⟨w, hw, hwa⟩ := hai hne
        refine ⟨w, ?_, hwa⟩
        rw [List.mem_filter]
        refine ⟨hw, ?_⟩
        have hnid := List.find?_eq_none.mp hfind w hw
        simpa using hnid
      | some t =>
        have htmem := List.mem_of_find?_eq_some hfind
        have htid : t.id = id := by simpa using List.find?_some hfind
        simp only [hfind] at hguard
        by_cases hta : t.isAdmin = true
        · have h2 : 2 ≤ (st.passcodes.filter (fun p => p.isAdmin)).length := by
            by_contra hlt
            exact hguard ⟨hta, by omega⟩
          have htadm : t ∈ st.passcodes.filter (fun p => p.isAdmin) := by
            rw [List.mem_filter]; exact ⟨htmem, hta⟩
          have hndp : st.passcodes.Nodup :=
            (show (st.passcodes.map (fun p => p.id)).Nodup from hnd).of_map
          obtain ⟨a, ha, hane⟩ := exists_other_mem (hndp.filter _) htadm h2
          rw [List.mem_filter] at ha
          refine ⟨a, ?_, ha.2⟩
          rw [List.mem_filter]
          refine ⟨ha.1, ?_⟩
          have haid : a.id ≠ id := by
            intro haid
            exact hane (id_inj hnd ha.1 htmem (haid.trans htid.symm))
          simpa using haid
        · obtain ⟨w, hw, hwa⟩ := hai hne
          refine ⟨w, ?_, hwa⟩
          rw [List.mem_filter]
          refine ⟨hw, ?_⟩
          have hwid : w.id ≠ id := by
            intro hwid
            apply hta
            have hwt : w = t := id_inj hnd hw htmem (hwid.trans htid.symm)
            rw [hwt] at hwa
            exact hwa
          simpa using hwid
    refine ⟨?_, ?_, ?_⟩
    · unfold IdsNodup
      dsimp only
      exact hnd.sublist ((List.filter_sublist st.passcodes).map (fun p => p.id))
    · intro hne'
      have hne : st.passcodes ≠ [] := by
        intro h0
        rw [show (st.passcodes.filter (fun p => ¬ p.id = id)) = [] from by rw [h0]; rfl] at hne'
        exact hne' rfl
      obtain ⟨a, ha, haa⟩ := hsurv hne
      exact ⟨a, ha, haa⟩
    · intro hne h0
      obtain ⟨a, ha, -⟩ := hsurv hne
      rw [h0] at ha
      exact (List.not_mem_nil a) ha

lemma loginRoutePost_preserves (body : Option String) (now : Int) (freshId freshTok : String)
    (st : Store) (hnd : IdsNodup st) (hai : AdminInv st)
    (hfresh : freshId ∉ st.passcodes.map (fun p => p.id)) :
    IdsNodup (loginRoutePost body now freshId freshTok st).store ∧
      AdminInv (loginRoutePost body now freshId freshTok st).store ∧
      (st.passcodes ≠ [] → (loginRoutePost body now freshId freshTok st).store.passcodes ≠ []) := by
  unfold loginRoutePost
  cases body with
  | none => exact ⟨hnd, hai, fun h => h⟩
  | some code =>
    dsimp only
    split
    · exact ⟨hnd, hai, fun h => h⟩
    · split
      · split
        · exact ⟨hnd, hai, fun h => h⟩
        · obtain ⟨hnd1, hai1, hne1⟩ :=
            @createPasscode_preserves code "Admin" true freshId st hnd hai hfresh (Or.inr rfl)
          obtain ⟨hnd2, hai2, hne2⟩ := login_preserves code now freshTok _ hnd1 hai1
          exact ⟨hnd2, hai2, fun hne => hne2 (hne1 hne)⟩
      · obtain ⟨hnd2, hai2, hne2⟩ := login_preserves code now freshTok st hnd hai
        split
        · exact ⟨hnd2, hai2, hne2⟩
        · exact ⟨hnd2, hai2, hne2⟩

lemma passcodesCreateRoute_preserves (req : Request) (body : CreateBody) (now : Int)
    (freshId : String) (st : Store) (hnd : IdsNodup st) (hai : AdminInv st)
    (hfresh : freshId ∉ st.passcodes.map (fun p => p.id)) :
    IdsNodup (passcodesCreateRoute req body now freshId st).2 ∧
      AdminInv (passcodesCreateRoute req body now freshId st).2 ∧
      (st.passcodes ≠ [] → (passcodesCreateRoute req body now freshId st).2.passcodes ≠ []) := by
  unfold passcodesCreateRoute
  cases hsess : getSession req.cookie now st with
  | none => exact ⟨hnd, hai, fun h => h⟩
  | some s =>
    dsimp only
    split
    · next hadm =>
      have hsa : s.isAdmin = true := by
        cases hia : s.isAdmin
        · rw [hia] at hadm; simp at hadm
        · rfl
      have hadmin : ∃ p ∈ st.passcodes, p.isAdmin = true :=
        admin_session_admin_passcode hsess hsa
      cases body.code with
      | none => exact ⟨hnd, hai, fun h => h⟩
      | some code =>
        cases body.name with
        | none => exact ⟨hnd, hai, fun h => h⟩
        | some nm =>
          by_cases hcn : code = "" ∨ nm = ""
          · simp only [if_pos hcn]
            exact ⟨hnd, hai, fun h => h⟩
          · simp only [if_neg hcn]
            obtain ⟨h1, h2, h3⟩ :=
              @createPasscode_preserves code nm (body.isAdmin.getD false) freshId st hnd hai
                hfresh (Or.inl hadmin)
            exact ⟨h1, h2, h3⟩
    · exact ⟨hnd, hai, fun h => h⟩

lemma passcodesDeleteRoute_preserves (req : Request) (now : Int) (id : String) (st : Store)
    (hnd : IdsNodup st) (hai : AdminInv st) :
    IdsNodup (passcodesDeleteRoute req now id st).2 ∧
      AdminInv (passcodesDeleteRoute req now id st).2 ∧
      (st.passcodes ≠ [] → (passcodesDeleteRoute req now id st).2.passcodes ≠ []) := by
  unfold passcodesDeleteRoute
  cases hsess : getSession req.cookie now st with
  | none => exact ⟨hnd, hai, fun h => h⟩
  | some s =>
    dsimp only
    split
    · exact deletePasscode_preserves id st hnd hai
    · exact ⟨hnd, hai, fun h => h⟩

lemma step_preserves {st st' : Store} (h : GoodStore st) (hs : Step st st') :
    GoodStore st' ∧ (st.passcodes ≠ [] → st'.passcodes ≠ []) := by
  obtain ⟨hnd, hai⟩ := h
  cases hs with
  | loginPost body now freshId freshTok st hfresh =>
    obtain ⟨a, b, c⟩ := loginRoutePost_preserves body now freshId freshTok st hnd hai hfresh
    exact ⟨⟨a, b⟩, c⟩
  | createPost req body now freshId st hfresh =>
    obtain ⟨a, b, c⟩ := passcodesCreateRoute_preserves req body now freshId st hnd hai hfresh
    exact ⟨⟨a, b⟩, c⟩
  | deleteCall req now id st =>
    obtain ⟨a, b, c⟩ := passcodesDeleteRoute_preserves req now id st hnd hai
    exact ⟨⟨a, b⟩, c⟩
  | loginCall code now freshTok st =>
    obtain ⟨a, b, c⟩ := login_preserves code now freshTok st hnd hai
    exact ⟨⟨a, b⟩, c⟩
  | logoutCall cookieToken st =>
    refine ⟨⟨?_, ?_⟩, ?_⟩
    · unfold IdsNodup
      rw [logout_preserves]
      exact hnd
    · unfold AdminInv
      rw [logout_preserves]
      exact hai
    · rw [logout_preserves]
      exact fun h => h

lemma reachable_good {st : Store} (h : Reachable st) : GoodStore st := by
  induction h with
  | empty =>
    refine ⟨?_, ?_⟩
    · unfold IdsNodup Store.empty
      simp
    · intro hne
      exact absurd rfl hne
  | step hr hs ih => exact (step_preserves ih hs).1

lemma steps_reachable_nonempty {st st' : Store} (h : Reachable st)
    (hs : Relation.ReflTransGen Step st st') :
    Reachable st' ∧ (st.passcodes ≠ [] → st'.passcodes ≠ []) := by
  induction hs with
  | refl => exact ⟨h, fun x => x⟩
  | tail hab hbc ih =>
    obtain ⟨hrb, hmono⟩ := ih
    have hp := step_preserves (reachable_good hrb) hbc
    exact ⟨Reachable.step hrb hbc, fun hne => hp.2 (hmono hne)⟩

lemma loginRoutePost_no_setup {st : Store} (hne : st.passcodes ≠ [])
    (body : Option String) (now : Int) (freshId freshTok : String) :
    (loginRoutePost body now freshId freshTok st).createdFirstAdmin = false := by
  have hasp : hasAnyPasscodes st = true := by
    unfold hasAnyPasscodes
    simpa using hne
  unfold loginRoutePost
  cases body with
  | none => rfl
  | some code =>
    dsimp only
    by_cases hc : code = ""
    · rw [if_pos hc]
    · rw [if_neg hc, hasp, if_neg (by simp)]
      by_cases hs : (login code now freshTok st).1.success = true
      · rw [if_pos hs]
      · rw [if_neg hs]

/-! ## Claim C3: the last-admin guard of deletePasscode -/

/-- Claim C3: if the passcode with the given id exists, is an admin, and
the admin count is at most 1, `deletePasscode` fails with the
last-admin-protected error and leaves the store untouched; otherwise,
when the target exists, the call succeeds, the passcode table afterwards
is exactly the old table without the rows carrying that id, and no row
with that id remains. -/
theorem deletePasscode_admin_guard (st : Store) (id : String) (p : Passcode)
    (hfind : st.passcodes.find? (fun q => q.id == id) = some p) :
    (p.isAdmin = true ∧ (st.passcodes.filter (fun q => q.isAdmin)).length ≤ 1 →
      deletePasscode id st = (⟨false, some "Cannot delete the last admin passcode"⟩, st)) ∧
    (¬ (p.isAdmin = true ∧ (st.passcodes.filter (fun q => q.isAdmin)).length ≤ 1) →
      (deletePasscode id st).1.success = true ∧
        (deletePasscode id st).2.passcodes = st.passcodes.filter (fun q => ¬ q.id = id) ∧
        ∀ q ∈ (deletePasscode id st).2.passcodes, q.id ≠ id) := by
  constructor
  · intro hcond
    simp only [deletePasscode, hfind]
    rw [if_pos hcond]
  · intro hng
    simp only [deletePasscode, hfind]
    rw [if_neg hng]
    refine ⟨rfl, rfl, ?_⟩
    intro q hq
    rw [List.mem_filter] at hq
    simpa using hq.2

/-- A store holding exactly one passcode, an admin. -/
def stOneAdmin : Store := ⟨[⟨"a1", "c1", "Alice", true, none⟩], []⟩

/-- A store holding two admin passcodes. -/
def stTwoAdmins : Store :=
  ⟨[⟨"a1", "c1", "Alice", true, none⟩, ⟨"a2", "c2", "Bob", true, none⟩], []⟩

theorem deletePasscode_admin_guard_witness :
    deletePasscode "a1" stOneAdmin
        = (⟨false, some "Cannot delete the last admin passcode"⟩, stOneAdmin) ∧
      (deletePasscode "a1" stTwoAdmins).1.success = true :=
  ⟨(deletePasscode_admin_guard stOneAdmin "a1" ⟨"a1", "c1", "Alice", true, none⟩
      (by decide)).1 (by decide),
    ((deletePasscode_admin_guard stTwoAdmins "a1" ⟨"a1", "c1", "Alice", true, none⟩
      (by decide)).2 (by decide)).1⟩

/-! ## Claim C9: deleting a missing id reports success and changes nothing -/

/-- Referential integrity of the sessions table: every session references
an existing passcode (the database enforces this with a foreign key). -/
def ForeignKeysOk (st : Store) : Prop :=
  ∀ s ∈ st.sessions, ∃ p ∈ st.passcodes, p.id = s.passcodeId

instance (st : Store) : Decidable (ForeignKeysOk st) := by
  unfold ForeignKeysOk; infer_instance

/-- Claim C9: when no passcode carries the requested id, the optional
chaining in the guard makes the admin check false, the delete matches no
row, and `deletePasscode` returns success with the store unchanged. -/
theorem deletePasscode_missing_id (st : Store) (id : String)
    (hfk : ForeignKeysOk st)
    (hfind : st.passcodes.find? (fun q => q.id == id) = none) :
    deletePasscode id st = (⟨true, none⟩, st) := by
  have hnone : ∀ a ∈ st.passcodes, ¬ a.id = id := by
    intro a ha
    have := List.find?_eq_none.mp hfind a ha
    simpa using this
  simp only [deletePasscode, hfind]
  rw [if_neg (by simp)]
  have hp : st.passcodes.filter (fun p => ¬ p.id = id) = st.passcodes := by
    apply List.filter_eq_self.mpr
    intro a ha
    simpa using hnone a ha
  have hs : st.sessions.filter (fun s => ¬ s.passcodeId = id) = st.sessions := by
    apply List.filter_eq_self.mpr
    intro s hsm
    obtain ⟨p, hpm, hpid⟩ := hfk s hsm
    have : ¬ s.passcodeId = id := by
      intro he
      exact hnone p hpm (hpid.trans he)
    simpa using this
  rw [hp, hs]

/-- A store with one admin passcode and one live session owned by it. -/
def stOneAdminSession : Store :=
  ⟨[⟨"a1", "c1", "Alice", true, none⟩], [⟨"a1", "tok1", 100⟩]⟩

theorem deletePasscode_missing_id_witness :
    deletePasscode "zzz" stOneAdminSession = (⟨true, none⟩, stOneAdminSession) :=
  deletePasscode_missing_id stOneAdminSession "zzz" (by decide) (by decide)

/-! ## Claim C6: a failing lastUsedAt update is not swallowed by login -/

/-- A store whose single admin passcode stores the digest of "123456",
so that a login with "123456" matches it. -/
def stMatch : Store := ⟨[⟨"a1", hashCode "123456", "Alice", true, none⟩], []⟩

/-- Claim C6 counterexample: with a matching passcode and a failing
`lastUsedAt` store write, `login` does not return success — the
exception propagates (there is no try/catch around the update in the
source), so no session is created and no success result is produced. -/
theorem login_lastUsedAt_failure_counterexample :
    loginWith false "123456" 0 "tok1" stMatch = Except.error "lastUsedAt update failed" := by
  rfl

/-- Claim C6 amended: whenever the digest lookup matches a passcode and
the store write updating `lastUsedAt` fails, `login` propagates the
failure instead of swallowing it: the call returns the store error, so
no session row is inserted and no success result reaches the caller. -/
theorem login_lastUsedAt_failure_propagates (code : String) (now : Int) (freshTok : String)
    (st : Store) (p : Passcode)
    (hfind : st.passcodes.find? (fun q => q.code == hashCode code) = some p) :
    loginWith false code now freshTok st = Except.error "lastUsedAt update failed" := by
  simp only [loginWith, hfind]
  rw [if_pos trivial]

theorem login_lastUsedAt_failure_propagates_witness :
    loginWith false "123456" 7 "tok2" stMatch = Except.error "lastUsedAt update failed" :=
  login_lastUsedAt_failure_propagates "123456" 7 "tok2" stMatch
    ⟨"a1", hashCode "123456", "Alice", true, none⟩ (by decide)

/-! ## Claim C5: the session validity test -/

/-- Claim C5: `getSession` returns an authenticated result exactly when a
session row exists whose token equals the presented cookie token and
whose expiry lies strictly in the future, with an owning passcode to
join; the result is always `authenticated = true` and carries the joined
passcode's `isAdmin` and `name`.  The hypothesis is the well-formedness
guarantee that stored session tokens are nonempty (they are generated as
64-character strings). -/
theorem getSession_spec (cookieToken : Option String) (now : Int) (st : Store)
    (htok : ∀ s ∈ st.sessions, s.token ≠ "") :
    ((getSession cookieToken now st).isSome ↔
      ∃ t, cookieToken = some t ∧
        ∃ s ∈ st.sessions, s.token = t ∧ now < s.expiresAt ∧
          ∃ p ∈ st.passcodes, p.id = s.passcodeId) ∧
    ∀ info, getSession cookieToken now st = some info →
      info.authenticated = true ∧
        ∃ s ∈ st.sessions, s.token ≠ "" ∧ cookieToken = some s.token ∧ now < s.expiresAt ∧
          ∃ p ∈ st.passcodes, p.id = s.passcodeId ∧ p.isAdmin = info.isAdmin ∧
            p.name = info.name := by
  constructor
  · constructor
    · intro hsome
      rw [Option.isSome_iff_exists] at hsome
      obtain ⟨info, hinfo⟩ := hsome
      obtain ⟨-, t, hck, -, s, hsm, hst, hexp, p, hpm, hpid, -, -⟩ := getSession_some hinfo
      exact ⟨t, hck, s, hsm, hst, hexp, p, hpm, hpid⟩
    · intro ⟨t, hck, s, hsm, hst, hexp, p, hpm, hpid⟩
      have htne : t ≠ "" := hst ▸ htok s hsm
      have hfind : (st.passcodes.find? (fun q => q.id == s.passcodeId)).isSome := by
        rw [List.find?_isSome]
        exact ⟨p, hpm, by simpa using hpid⟩
      rw [Option.isSome_iff_exists] at hfind
      obtain ⟨p', hp'⟩ := hfind
      have hrow : (p'.isAdmin, p'.name) ∈ sessionRows t now st := by
        unfold sessionRows
        rw [List.mem_filterMap]
        refine ⟨s, hsm, ?_⟩
        rw [hp']
        dsimp only
        rw [if_pos ⟨hst, hexp⟩]
      subst hck
      unfold getSession
      dsimp only
      rw [if_neg htne]
      cases hr : sessionRows t now st with
      | nil => rw [hr] at hrow; exact absurd hrow (List.not_mem_nil _)
      | cons row tail => cases row; rfl
  · intro info hinfo
    obtain ⟨hauth, t, hck, htne, s, hsm, hst, hexp, p, hpm, hpid, hisad, hnm⟩ :=
      getSession_some hinfo
    exact ⟨hauth, s, hsm, hst ▸ htne, by rw [hck, hst], hexp, p, hpm, hpid, hisad, hnm⟩

/-- A store with one admin passcode owning one session that expires at
time 100, presented through the matching cookie. -/
theorem getSession_spec_witness :
    ((getSession (some "tok1") 99 stOneAdminSession).isSome ↔
      ∃ t, (some "tok1" : Option String) = some t ∧
        ∃ s ∈ stOneAdminSession.sessions, s.token = t ∧ (99:Int) < s.expiresAt ∧
          ∃ p ∈ stOneAdminSession.passcodes, p.id = s.passcodeId) :=
  (getSession_spec (some "tok1") 99 stOneAdminSession (by decide)).1

/-! ## Claim C2: the ordered dual-mode request authorizer -/

lemma validateApiToken_unconfigured (cfg : Option String) (req : Request)
    (h : cfg = none ∨ cfg = some "") : validateApiToken cfg req = ⟨true, none⟩ := by
  rcases h with h | h <;> subst h
  · rfl
  · simp [validateApiToken]

lemma validateApiToken_bearer (tk : String) (req : Request) (htk : tk ≠ "")
    (hauth : req.authorization = some ("Bearer " ++ tk)) :
    validateApiToken (some tk) req = ⟨true, none⟩ := by
  have hb : strStartsWith ("Bearer " ++ tk) "Bearer " = true := by
    unfold strStartsWith
    rw [String.data_append]
    rw [show ("Bearer " : String).data.length = ("Bearer " : String).data.length from rfl]
    rw [List.take_left]
    exact beq_self_eq_true _
  have hs : strSlice 7 ("Bearer " ++ tk) = tk := by
    unfold strSlice
    rw [String.data_append]
    rw [show (7 : Nat) = ("Bearer " : String).data.length from rfl]
    rw [List.drop_left]
  simp [validateApiToken, htk, hauth, hb, hs]

lemma validateApiToken_xheader (tk : String) (req : Request) (htk : tk ≠ "")
    (hx : req.xApiToken = some tk) :
    validateApiToken (some tk) req = ⟨true, none⟩ := by
  simp only [validateApiToken]
  rw [if_neg htk]
  split
  · rfl
  · rw [if_pos (by rw [hx]; exact beq_self_eq_true _)]

lemma validateApiToken_nomatch (tk : String) (req : Request) (htk : tk ≠ "")
    (hna : ∀ h, req.authorization = some h →
      ¬(strStartsWith h "Bearer " = true ∧ strSlice 7 h = tk))
    (hnx : req.xApiToken ≠ some tk) :
    validateApiToken (some tk) req = ⟨false, some 401⟩ := by
  simp only [validateApiToken]
  rw [if_neg htk]
  have hbearer : (match req.authorization with
      | some authHeader => strStartsWith authHeader "Bearer " && (strSlice 7 authHeader == tk)
      | none => false) = false := by
    cases hauth : req.authorization with
    | none => rfl
    | some h =>
      have := hna h hauth
      cases hsw : strStartsWith h "Bearer " with
      | false => simp [hsw]
      | true =>
        have hne : strSlice 7 h ≠ tk := fun he => this ⟨hsw, he⟩
        simp [hne]
  rw [hbearer]
  rw [if_neg (by simp)]
  rw [if_neg (by simpa using hnx)]

/-- Claim C2: `validateRequest` implements the ordered dual-mode gate.
With no API token configured (unset or empty) every request is
authorized regardless of headers, session state, or clock.  With a token
configured, an exactly matching `Authorization: Bearer` header or
`x-api-token` header authorizes for every store and clock, so the
session is never consulted.  Otherwise the request is authorized exactly
when `getSession` returns an authenticated result, and is rejected with
a 401 structured error when it does not. -/
theorem validateRequest_spec (cfg : Option String) (req : Request) (now : Int) (st : Store) :
    ((cfg = none ∨ cfg = some "") → validateRequest cfg req now st = ⟨true, none⟩) ∧
    (∀ tk, cfg = some tk → tk ≠ "" →
      ((req.authorization = some ("Bearer " ++ tk) ∨ req.xApiToken = some tk) →
        validateRequest cfg req now st = ⟨true, none⟩) ∧
      ((∀ h, req.authorization = some h →
          ¬(strStartsWith h "Bearer " = true ∧ strSlice 7 h = tk)) →
        req.xApiToken ≠ some tk →
        ((∃ info, getSession req.cookie now st = some info ∧ info.authenticated = true) →
          validateRequest cfg req now st = ⟨true, none⟩) ∧
        ((¬ ∃ info, getSession req.cookie now st = some info ∧ info.authenticated = true) →
          validateRequest cfg req now st = ⟨false, some 401⟩))) := by
  constructor
  · intro h
    unfold validateRequest
    rw [validateApiToken_unconfigured cfg req h]
    rfl
  · intro tk hcfg htk
    subst hcfg
    constructor
    · intro hmatch
      unfold validateRequest
      rcases hmatch with hauth | hx
      · rw [validateApiToken_bearer tk req htk hauth]
        rfl
      · rw [validateApiToken_xheader tk req htk hx]
        rfl
    · intro hna hnx
      have hv := validateApiToken_nomatch tk req htk hna hnx
      constructor
      · intro ⟨info, hinfo, hauth⟩
        unfold validateRequest
        rw [hv]
        dsimp only
        rw [if_neg (by simp)]
        rw [hinfo]
        dsimp only
        rw [if_pos hauth]
      · intro hno
        unfold validateRequest
        rw [hv]
        dsimp only
        rw [if_neg (by simp)]
        cases hinfo : getSession req.cookie now st with
        | none => rfl
        | some info =>
          have hnauth : ¬ info.authenticated = true := fun ha => hno ⟨info, hinfo, ha⟩
          dsimp only
          rw [if_neg hnauth]

theorem validateRequest_spec_witness :
    validateRequest none ⟨none, none, none⟩ 0 Store.empty = ⟨true, none⟩ ∧
      validateRequest (some "T") ⟨some "Bearer T", none, none⟩ 0 Store.empty = ⟨true, none⟩ ∧
      validateRequest (some "T") ⟨some "Bearer X", some "Y", none⟩ 0 Store.empty
        = ⟨false, some 401⟩ :=
  ⟨(validateRequest_spec none ⟨none, none, none⟩ 0 Store.empty).1 (Or.inl rfl),
    ((validateRequest_spec (some "T") ⟨some "Bearer T", none, none⟩ 0 Store.empty).2
      "T" rfl (by decide)).1 (Or.inl (by decide)),
    (((validateRequest_spec (some "T") ⟨some "Bearer X", some "Y", none⟩ 0 Store.empty).2
      "T" rfl (by decide)).2
        (by intro h hh; cases hh; decide)
        (by decide)).2
      (by rintro ⟨info, hinfo, -⟩; exact Option.noConfusion hinfo)⟩

/-! ## Claim C4: passcode management requires an admin session -/

/-- Claim C4: all three passcode-management handlers (list, create,
delete) answer 401 and leave the store unchanged whenever `getSession`
does not produce an authenticated admin session — even when the request
carries an API token that `validateApiToken` accepts, because the
handlers never consult the token. -/
theorem adminRoutes_require_admin_session (cfg : Option String) (req : Request)
    (body : CreateBody) (now : Int) (freshId id : String) (st : Store)
    (htok : (validateApiToken cfg req).valid = true)
    (hno : ∀ info, getSession req.cookie now st = some info →
      ¬(info.authenticated = true ∧ info.isAdmin = true)) :
    passcodesListRoute req now st = (401, st) ∧
      passcodesCreateRoute req body now freshId st = (401, st) ∧
      passcodesDeleteRoute req now id st = (401, st) := by
  cases hsess : getSession req.cookie now st with
  | none =>
    refine ⟨?_, ?_, ?_⟩ <;> simp [passcodesListRoute, passcodesCreateRoute,
      passcodesDeleteRoute, hsess]
  | some s =>
    have hns := hno s hsess
    have hfalse : (s.authenticated && s.isAdmin) = false := by
      cases ha : s.authenticated <;> cases hb : s.isAdmin <;> simp_all
    refine ⟨?_, ?_, ?_⟩ <;> simp [passcodesListRoute, passcodesCreateRoute,
      passcodesDeleteRoute, hsess, hfalse]

theorem adminRoutes_require_admin_session_witness :
    passcodesListRoute ⟨none, some "T", none⟩ 0 stOneAdmin = (401, stOneAdmin) ∧
      passcodesCreateRoute ⟨none, some "T", none⟩ ⟨some "123456", some "Eve", some true⟩ 0
        "newid" stOneAdmin = (401, stOneAdmin) ∧
      passcodesDeleteRoute ⟨none, some "T", none⟩ 0 "a1" stOneAdmin = (401, stOneAdmin) :=
  adminRoutes_require_admin_session (some "T") ⟨none, some "T", none⟩
    ⟨some "123456", some "Eve", some true⟩ 0 "newid" "a1" stOneAdmin (by decide)
    (by intro info h; exact Option.noConfusion h)

/-! ## Claim C1: the last-admin invariant holds in every reachable state -/

/-- Claim C1: starting from the empty credential store, every state
reachable through the public operations satisfies the last-admin
invariant — whenever any passcode exists, at least one admin passcode
exists — and every further public operation preserves it. -/
theorem reachable_admin_invariant (st : Store) (h : Reachable st) :
    AdminInv st ∧ ∀ st', Step st st' → AdminInv st' :=
  ⟨(reachable_good h).2, fun _ hs => (step_preserves (reachable_good h) hs).1.2⟩

theorem reachable_admin_invariant_witness :
    AdminInv (loginRoutePost (some "123456") 0 "id1" "tok1" Store.empty).store :=
  (reachable_admin_invariant (loginRoutePost (some "123456") 0 "id1" "tok1" Store.empty).store
    (Reachable.step Reachable.empty
      (Step.loginPost (some "123456") 0 "id1" "tok1" Store.empty (by decide)))).1

/-! ## Claim C7: the first-run setup branch runs at most once -/

/-- Claim C7: in every execution, once a reachable state holds at least
one passcode, every later state still holds one, so every subsequent
call of the login route sees `hasAnyPasscodes = true` and never again
runs the branch that force-creates the admin passcode named "Admin". -/
theorem setup_branch_at_most_once (st st' : Store) (h : Reachable st)
    (hne : st.passcodes ≠ []) (hs : Relation.ReflTransGen Step st st') :
    hasAnyPasscodes st' = true ∧
      ∀ body now freshId freshTok,
        (loginRoutePost body now freshId freshTok st').createdFirstAdmin = false := by
  obtain ⟨hr', hmono⟩ := steps_reachable_nonempty h hs
  have hne' := hmono hne
  constructor
  · unfold hasAnyPasscodes
    simpa using hne'
  · intro body now freshId freshTok
    exact loginRoutePost_no_setup hne' body now freshId freshTok

theorem setup_branch_at_most_once_witness :
    hasAnyPasscodes (loginRoutePost (some "123456") 0 "id1" "tok1" Store.empty).store = true ∧
      (loginRoutePost (some "000000") 5 "id2" "tok2"
        (loginRoutePost (some "123456") 0 "id1" "tok1" Store.empty).store).createdFirstAdmin
        = false := by
  have h := setup_branch_at_most_once
    (loginRoutePost (some "123456") 0 "id1" "tok1" Store.empty).store
    (loginRoutePost (some "123456") 0 "id1" "tok1" Store.empty).store
    (Reachable.step Reachable.empty
      (Step.loginPost (some "123456") 0 "id1" "tok1" Store.empty (by decide)))
    (by decide) Relation.ReflTransGen.refl
  exact ⟨h.1, h.2 (some "000000") 5 "id2" "tok2"⟩

/-! ## Claim C10: hashCode output shape -/

lemma toInt32_range (n : Int) : -2147483648 ≤ toInt32 n ∧ toInt32 n < 2147483648 := by
  unfold toInt32
  have h1 : (0:Int) ≤ (n + 2147483648) % 4294967296 :=
    Int.emod_nonneg _ (by norm_num)
  have h2 : (n + 2147483648) % 4294967296 < 4294967296 :=
    Int.emod_lt_of_pos _ (by norm_num)
  omega

lemma foldl_hashStep_range (l : List Char) (h0 : Int)
    (hh : -2147483648 ≤ h0 ∧ h0 < 2147483648) :
    -2147483648 ≤ l.foldl (fun h c => hashStep h c.toNat) h0 ∧
      l.foldl (fun h c => hashStep h c.toNat) h0 < 2147483648 := by
  induction l generalizing h0 with
  | nil => exact hh
  | cons c cs ih =>
    rw [List.foldl_cons]
    exact ih _ (toInt32_range _)

lemma hashLoop_natAbs_le (l : List Char) : (hashLoop l).natAbs ≤ 2147483648 := by
  have h := foldl_hashStep_range l 0 (by norm_num)
  unfold hashLoop
  omega

lemma hexDigitChar_hex : ∀ m, m < 16 →
    ((hexDigitChar m).isDigit = true ∨ ('a' ≤ hexDigitChar m ∧ hexDigitChar m ≤ 'f')) := by
  decide

lemma toHexAux_length (fuel : Nat) : ∀ n k, 1 ≤ k → n < 16 ^ k →
    (toHexAux fuel n).length ≤ k := by
  induction fuel with
  | zero =>
    intro n k hk _
    simp [toHexAux]
  | succ fuel ih =>
    intro n k hk hn
    unfold toHexAux
    split
    · simpa using hk
    · next hge =>
      have hk2 : 2 ≤ k := by
        by_contra hlt
        have hk1 : k = 1 := by omega
        rw [hk1] at hn
        simp at hn
        omega
      have hdiv : n / 16 < 16 ^ (k - 1) := by
        rw [Nat.div_lt_iff_lt_mul (by norm_num)]
        calc n < 16 ^ k := hn
        _ = 16 ^ (k - 1) * 16 := by
          rw [← pow_succ]
          congr 1
          omega
      have := ih (n / 16) (k - 1) (by omega) hdiv
      rw [List.length_append]
      simp only [List.length_singleton]
      omega

lemma toHexAux_chars (fuel : Nat) : ∀ n, ∀ c ∈ toHexAux fuel n,
    (c.isDigit = true ∨ ('a' ≤ c ∧ c ≤ 'f')) := by
  induction fuel with
  | zero =>
    intro n c hc
    simp [toHexAux] at hc
  | succ fuel ih =>
    intro n c hc
    unfold toHexAux at hc
    split at hc
    · next hlt =>
      simp only [List.mem_singleton] at hc
      subst hc
      exact hexDigitChar_hex n hlt
    · rw [List.mem_append] at hc
      rcases hc with hc | hc
      · exact ih _ c hc
      · simp only [List.mem_singleton] at hc
        subst hc
        exact hexDigitChar_hex _ (Nat.mod_lt _ (by norm_num))

/-- Claim C10: `hashCode` is total, and for every input string the
output is exactly 8 characters, each a lowercase hexadecimal digit:
both accumulators stay in the signed 32-bit range, so the absolute
value is at most 2^31 < 16^8, whose hex rendering has at most 8 digits
and is left-padded with '0' to exactly 8. -/
theorem hashCode_shape (code : String) :
    (hashCode code).length = 8 ∧
      ∀ c ∈ (hashCode code).data, (c.isDigit = true ∨ ('a' ≤ c ∧ c ≤ 'f')) := by
  unfold hashCode
  have habs := hashLoop_natAbs_le
    ("kanban_" ++ toString (hashLoop code.data) ++ "_" ++ String.mk code.data.reverse).data
  have hlen : (toHexList (hashLoop
      ("kanban_" ++ toString (hashLoop code.data) ++ "_"
        ++ String.mk code.data.reverse).data).natAbs).length ≤ 8 := by
    unfold toHexList
    apply toHexAux_length _ _ 8 (by norm_num)
    calc (hashLoop _).natAbs ≤ 2147483648 := habs
    _ < 16 ^ 8 := by norm_num
  constructor
  · show (padStart8 _).length = 8
    unfold padStart8
    rw [List.length_append, List.length_replicate]
    omega
  · intro c hc
    have hc' : c ∈ padStart8 (toHexList (hashLoop
        ("kanban_" ++ toString (hashLoop code.data) ++ "_"
          ++ String.mk code.data.reverse).data).natAbs) := hc
    unfold padStart8 at hc'
    rw [List.mem_append] at hc'
    rcases hc' with hc' | hc'
    · have : c = '0' := List.eq_of_mem_replicate hc'
      subst this
      left
      decide
    · exact toHexAux_chars _ _ c hc'

theorem hashCode_shape_witness : (hashCode "123456").length = 8 :=
  (hashCode_shape "123456").1
